import Mathlib

/-!
Shallow embedding of the dynamic playback-rate engine of
`spicetify-raccoon-wheel` (`src/logic.ts`).  JavaScript numbers are
modelled as rationals (`ℚ`); every arithmetic operation appearing in the
source is exact rational arithmetic, except `Math.sin`, which is kept as
an explicit function parameter `msin : ℚ → ℚ` of the one strategy that
uses it (its value never reaches any statement proved below, because the
final clamp dominates it).  Every division performed by the source has a
provably nonzero denominator at the point where it executes (see
`findCurrentBeatIndex_next_start_gt` below), so total rational division
is an exact model of the source's floating-point division on every
reachable path.

The source file contains two variants of `calculateDynamicPlaybackRate`;
they are embedded in the namespaces `TrapNation` (the full strategy) and
`SimpleVariant` (the simpler one).  The shared beat-location loop is
embedded once as `findCurrentBeatIndex`.
-/

/-- Mirror of `interface Beat` (`logic.ts`). -/
structure Beat where
  start : ℚ
  duration : ℚ
  confidence : ℚ
deriving DecidableEq, Repr

/-- Mirror of `interface Section` (`logic.ts`). -/
structure TrackSection where
  start : ℚ
  duration : ℚ
  confidence : ℚ
  loudness : ℚ
  tempo : ℚ
  tempo_confidence : ℚ
  key : ℚ
  key_confidence : ℚ
  mode : ℚ
  mode_confidence : ℚ
  time_signature : ℚ
  time_signature_confidence : ℚ
deriving DecidableEq, Repr

/-- Mirror of `interface Segment` (`logic.ts`).  The `timbre` array is
modelled as optional because the source defends against its absence with
the `!segment.timbre` check in `getBassEnergy`. -/
structure Segment where
  start : ℚ
  duration : ℚ
  confidence : ℚ
  loudness_start : ℚ
  loudness_max : ℚ
  loudness_max_time : ℚ
  loudness_end : ℚ
  pitches : List ℚ
  timbre : Option (List ℚ)
deriving DecidableEq, Repr

/-- Mirror of `interface Track` (`logic.ts`). -/
structure Track where
  tempo : ℚ
  loudness : ℚ
  duration : ℚ
deriving DecidableEq, Repr

/-- Mirror of `interface AudioData` (`logic.ts`): all four fields are
optional. -/
structure AudioData where
  track : Option Track
  beats : Option (List Beat)
  sections : Option (List TrackSection)
  segments : Option (List Segment)
deriving DecidableEq, Repr

/-- Mirror of `DEFAULT_VIDEO_BPM = 130`. -/
def DEFAULT_VIDEO_BPM : ℚ := 130

/-- Mirror of `easeOutCubic(t) = 1 - Math.pow(1 - t, 3)`. -/
def easeOutCubic (t : ℚ) : ℚ := 1 - (1 - t) ^ 3

/-- Mirror of `easeInQuad(t) = t * t`. -/
def easeInQuad (t : ℚ) : ℚ := t * t

/-- The IEEE-754 double value of `Math.PI`, as an exact rational. -/
def mathPI : ℚ := 884279719003555 / 281474976710656

/-- Mirror of `sinePulse(t) = Math.sin(t * Math.PI)`, with `Math.sin`
supplied as the explicit parameter `msin`. -/
def sinePulse (msin : ℚ → ℚ) (t : ℚ) : ℚ := msin (t * mathPI)

/-- Mirror of `normalizeLoudness(loudnessDb, minDb, maxDb)`; the source
always calls it with the default arguments `minDb = -60`, `maxDb = 0`. -/
def normalizeLoudness (loudnessDb minDb maxDb : ℚ) : ℚ :=
  max 0 (min 1 ((loudnessDb - minDb) / (maxDb - minDb)))

/-- Mirror of `getBassEnergy(segment)`: missing or empty `timbre` yields
`0.5`; otherwise `brightness = timbre[1] || 0` (an absent index — JS
`undefined` — and a zero coefficient both collapse to `0`), and the
result is `clamp((-brightness + 100) / 200, 0, 1)`. -/
def getBassEnergy (segment : Segment) : ℚ :=
  match segment.timbre with
  | none => 0.5
  | some l =>
    if l.length = 0 then 0.5
    else
      let brightness := (l.get? 1).getD 0
      max 0 (min 1 ((-brightness + 100) / 200))

/-- Result record of `detectBuildUp`. -/
structure BuildUpResult where
  isBuildUp : Bool
  buildUpProgress : ℚ
deriving DecidableEq, Repr

/-- Mirror of `detectBuildUp(progressInSeconds, sections,
currentSectionIndex)`.  The out-of-range index guard reproduces
`currentSectionIndex < 0 || currentSectionIndex >= sections.length - 1`;
the catch-all match arm is unreachable once that guard has passed. -/
def detectBuildUp (progressInSeconds : ℚ) (sections : List TrackSection)
    (currentSectionIndex : Int) : BuildUpResult :=
  if currentSectionIndex < 0 ∨
      currentSectionIndex ≥ (sections.length : Int) - 1 then
    ⟨false, 0⟩
  else
    match sections.get? currentSectionIndex.toNat,
        sections.get? (currentSectionIndex.toNat + 1) with
    | some currentSection, some nextSection =>
      if nextSection.loudness - currentSection.loudness > 1.5 then
        let timeUntilNextSection :=
          (currentSection.start + currentSection.duration) - progressInSeconds
        if timeUntilNextSection > 8 then ⟨false, 0⟩
        else ⟨true, max 0 (min 1 (1 - timeUntilNextSection / 8))⟩
      else ⟨false, 0⟩
    | _, _ => ⟨false, 0⟩

/-- Mirror of `findSectionWithIndex(progressInSeconds, sections)`:
the first section whose half-open interval `[start, start + duration)`
contains the timestamp, together with its index; `none` is the source's
`{ section: null, index: -1 }`. -/
def findSectionWithIndexAux (progressInSeconds : ℚ) :
    List TrackSection → Nat → Option (TrackSection × Nat)
  | [], _ => none
  | s :: rest, i =>
    if progressInSeconds ≥ s.start ∧ progressInSeconds < s.start + s.duration
    then some (s, i)
    else findSectionWithIndexAux progressInSeconds rest (i + 1)

/-- Entry point of the section search, starting at index `0`. -/
def findSectionWithIndex (progressInSeconds : ℚ)
    (sections : List TrackSection) : Option (TrackSection × Nat) :=
  findSectionWithIndexAux progressInSeconds sections 0

/-- Mirror of `getSectionEnergy(section, trackLoudness) =
clamp(((section.loudness - trackLoudness) + 5) / 8, 0, 1)`. -/
def getSectionEnergy (sec : TrackSection) (trackLoudness : ℚ) : ℚ :=
  max 0 (min 1 ((sec.loudness - trackLoudness + 5) / 8))

/-- Mirror of the beat-search loop shared by both variants
(`for (i...) { if (beats[i].start <= progressInSeconds) currentBeatIndex = i;
else break; }` starting from `currentBeatIndex = -1`): the loop stops at
the first beat whose start exceeds the timestamp, so the result is the
index of the last beat of the longest prefix whose starts are all
`≤ progressInSeconds`, and `-1` when that prefix is empty. -/
def findCurrentBeatIndex (progressInSeconds : ℚ) : List Beat → Int
  | [] => -1
  | b :: rest =>
    if b.start ≤ progressInSeconds
    then findCurrentBeatIndex progressInSeconds rest + 1
    else -1

/-- STEPs 2-7 of the Trap-Nation `calculateDynamicPlaybackRate`
(`logic.ts` lines 216-350): the unclamped playback rate computed once a
current and a next beat have been located.  `msin` stands for `Math.sin`
(used only by the rest-phase `sinePulse`). -/
def TrapNation.rawRate (msin : ℚ → ℚ) (data : AudioData)
    (progressInSeconds videoDefaultBPM : ℚ)
    (currentBeat nextBeat : Beat) : ℚ :=
  let trackLoudness := (data.track.map Track.loudness).getD (-10)
  let trackTempo := (data.track.map Track.tempo).getD 120
  let beatDuration := nextBeat.start - currentBeat.start
  let positionInBeat :=
    (progressInSeconds - currentBeat.start) / beatDuration
  let instantBPM := 60 / beatDuration
  let tempoRatioVal := instantBPM / videoDefaultBPM
  let clampedTempoRatioVal := max 0.6 (min 1.4 tempoRatioVal)
  let tempoIntensity :=
    max 0.3 (min 1.0 ((trackTempo - 70) / 60))
  let sectionPair : ℚ × ℚ :=
    match data.sections with
    | none => (0.5, 1.0)
    | some sections =>
      if sections.length > 0 then
        match findSectionWithIndex progressInSeconds sections with
        | none => (0.5, 1.0)
        | some (currentSection, sectionIndex) =>
          let sectionEnergy :=
            getSectionEnergy currentSection trackLoudness
          let bu :=
            detectBuildUp progressInSeconds sections
              (sectionIndex : Int)
          (sectionEnergy,
            if bu.isBuildUp then
              1.0 + bu.buildUpProgress * 0.4 * tempoIntensity
            else 1.0)
      else (0.5, 1.0)
  let sectionEnergy := sectionPair.1
  let buildUpMultiplier := sectionPair.2
  let sectionRangeMin := 0.5 + (1 - tempoIntensity) * 0.2
  let sectionRangeMax := 1.0 * tempoIntensity
  let sectionMultiplier :=
    sectionRangeMin + sectionEnergy * sectionRangeMax
  let baseRate :=
    clampedTempoRatioVal * sectionMultiplier * buildUpMultiplier
  let beatConfidence := currentBeat.confidence
  let basePulseIntensity := 0.3 + sectionEnergy * 0.7
  let pulseIntensity :=
    basePulseIntensity * (0.4 + tempoIntensity * 0.6)
  let beatPulse :=
    if positionInBeat < 0.15 then
      1.0 + (0.3 + beatConfidence * 0.5) * pulseIntensity *
        easeOutCubic (positionInBeat / 0.15)
    else if positionInBeat < 0.5 then
      1.0 + (0.3 + beatConfidence * 0.5) * pulseIntensity *
        (1 - easeInQuad ((positionInBeat - 0.15) / 0.35))
    else
      1.0 + 0.1 * beatConfidence * pulseIntensity *
        sinePulse msin ((positionInBeat - 0.5) / 0.5)
  let segmentBoost :=
    match data.segments with
    | none => 1.0
    | some segments =>
      if segments.length > 0 then
        match segments.find? (fun seg =>
            decide (progressInSeconds ≥ seg.start) &&
            decide (progressInSeconds < seg.start + seg.duration))
          with
        | none => 1.0
        | some currentSegment =>
          let segmentLoudness :=
            normalizeLoudness currentSegment.loudness_max (-60) 0
          let bassEnergy := getBassEnergy currentSegment
          let combinedEnergy :=
            segmentLoudness * 0.6 + bassEnergy * 0.4
          let maxBoost :=
            (0.15 + sectionEnergy * 0.25) * tempoIntensity
          1.0 + combinedEnergy * maxBoost
      else 1.0
  baseRate * beatPulse * segmentBoost

/-- Mirror of the first (Trap-Nation style) `calculateDynamicPlaybackRate`
in `logic.ts`, lines 178-363: the control-flow skeleton (missing data,
pre-beat and post-beat early returns), with the located-beat computation
in `TrapNation.rawRate` and the final STEP-8 clamp `[0.4, 2.5]` applied
to it.  The `none` arm after a successful index computation is
unreachable (the index is always a valid position, see
`findCurrentBeatIndex_get`) and repeats the pre-beat value. -/
def TrapNation.calculateDynamicPlaybackRate (msin : ℚ → ℚ)
    (currentProgress : ℚ) (audioData : Option AudioData)
    (videoDefaultBPM : ℚ) : ℚ :=
  match audioData with
  | none => 1
  | some data =>
    match data.beats with
    | none => 1
    | some beats =>
      if beats.length = 0 then 1
      else
        let progressInSeconds := currentProgress / 1000
        let currentBeatIndex := findCurrentBeatIndex progressInSeconds beats
        if currentBeatIndex = -1 then 0.4
        else
          match beats.get? currentBeatIndex.toNat with
          | none => 0.4
          | some currentBeat =>
            match beats.get? (currentBeatIndex.toNat + 1) with
            | none => 0.5 + currentBeat.confidence * 0.3
            | some nextBeat =>
              max 0.4 (min 2.5 (TrapNation.rawRate msin data
                progressInSeconds videoDefaultBPM currentBeat nextBeat))

/-- Mirror of the 25%-boost adjustment of the simple variant
(`if (rateRatio < 0.8 && currentBeat.confidence > 0.5) rateRatio *= 1.25`). -/
def SimpleVariant.rateRatioBoosted (rateRatioVal confidence : ℚ) : ℚ :=
  if rateRatioVal < 0.8 ∧ confidence > 0.5 then rateRatioVal * 1.25
  else rateRatioVal

/-- Mirror of `confidenceMultiplier = 0.4 + currentBeat.confidence * 1.2`
of the simple variant. -/
def SimpleVariant.confidenceMultiplier (confidence : ℚ) : ℚ :=
  0.4 + confidence * 1.2

/-- Mirror of the simple variant's loudness-multiplier accumulation
(starting from `1.0`, adding the independently clamped section and
segment loudness deltas, both only when `audioData.track` is present),
before the `max(0.65, ·)` safety floor is applied. -/
def SimpleVariant.loudnessMultiplier (progressInSeconds : ℚ)
    (track : Option Track) (sections : Option (List TrackSection))
    (segments : Option (List Segment)) : ℚ :=
  match track with
  | none => 1.0
  | some t =>
    let m1 :=
      match sections with
      | none => (1.0 : ℚ)
      | some secs =>
        match secs.find? (fun sec =>
            decide (progressInSeconds ≥ sec.start) &&
            decide (progressInSeconds < sec.start + sec.duration)) with
        | none => 1.0
        | some currentSection =>
          1.0 + max (-0.15) (min 0.6 ((currentSection.loudness - t.loudness) * 0.15))
    match segments with
    | none => m1
    | some segs =>
      match segs.find? (fun segment =>
          decide (progressInSeconds ≥ segment.start) &&
          decide (progressInSeconds < segment.start + segment.duration)) with
      | none => m1
      | some currentSegment =>
        m1 + max (-0.1) (min 0.4 ((currentSegment.loudness_max - t.loudness) * 0.12))

/-- Mirror of the simple variant's four-branch beat-position multiplier
(attack 1.2, early decay 1.1, mid-beat 0.95, tail 1.0). -/
def SimpleVariant.beatPhaseMultiplier (positionInBeat : ℚ) : ℚ :=
  if positionInBeat < 0.1 then 1.2
  else if positionInBeat < 0.4 then 1.1
  else if positionInBeat < 0.7 then 0.95
  else 1.0

/-- The simple variant's unclamped playback rate once a current and a
next beat have been located (`logic.ts` lines 517-616): the sequence of
`playbackRate *=` steps of the source, written as one product in the same
order. -/
def SimpleVariant.rawRate (data : AudioData)
    (progressInSeconds videoDefaultBPM : ℚ)
    (currentBeat nextBeat : Beat) : ℚ :=
  let beatDuration := nextBeat.start - currentBeat.start
  let instantBPM := 60 / beatDuration
  let rateRatioRaw := instantBPM / videoDefaultBPM
  let rateRatioVal :=
    if rateRatioRaw < 0.8 ∧ currentBeat.confidence > 0.5
    then rateRatioRaw * 1.25
    else rateRatioRaw
  let confidenceMult := 0.4 + currentBeat.confidence * 1.2
  let loudnessMult : ℚ :=
    match data.track with
    | none => 1.0
    | some t =>
      let m1 :=
        match data.sections with
        | none => (1.0 : ℚ)
        | some secs =>
          match secs.find? (fun sec =>
              decide (progressInSeconds ≥ sec.start) &&
              decide (progressInSeconds <
                sec.start + sec.duration)) with
          | none => 1.0
          | some currentSection =>
            1.0 + max (-0.15) (min 0.6
              ((currentSection.loudness - t.loudness) * 0.15))
      match data.segments with
      | none => m1
      | some segs =>
        match segs.find? (fun segment =>
            decide (progressInSeconds ≥ segment.start) &&
            decide (progressInSeconds <
              segment.start + segment.duration)) with
        | none => m1
        | some currentSegment =>
          m1 + max (-0.1) (min 0.4
            ((currentSegment.loudness_max - t.loudness) * 0.12))
  let loudnessFloored := max 0.65 loudnessMult
  let positionInBeat :=
    (progressInSeconds - currentBeat.start) / beatDuration
  let beatPhaseMult : ℚ :=
    if positionInBeat < 0.1 then 1.2
    else if positionInBeat < 0.4 then 1.1
    else if positionInBeat < 0.7 then 0.95
    else 1.0
  rateRatioVal * confidenceMult * loudnessFloored * beatPhaseMult

/-- Mirror of the second (simple) `calculateDynamicPlaybackRate` in
`logic.ts`, lines 483-622: the control-flow skeleton with the
located-beat computation in `SimpleVariant.rawRate` and the final clamp
`[0.3, 3.0]` applied to it.  As in the first variant, the `none` arm
after the index computation is unreachable and repeats the pre-beat
value. -/
def SimpleVariant.calculateDynamicPlaybackRate (currentProgress : ℚ)
    (audioData : Option AudioData) (videoDefaultBPM : ℚ) : ℚ :=
  match audioData with
  | none => 1
  | some data =>
    match data.beats with
    | none => 1
    | some beats =>
      if beats.length = 0 then 1
      else
        let progressInSeconds := currentProgress / 1000
        let currentBeatIndex := findCurrentBeatIndex progressInSeconds beats
        if currentBeatIndex = -1 then 0.3
        else
          match beats.get? currentBeatIndex.toNat with
          | none => 0.3
          | some currentBeat =>
            match beats.get? (currentBeatIndex.toNat + 1) with
            | none => 0.5 + currentBeat.confidence * 1.5
            | some nextBeat =>
              max 0.3 (min 3.0 (SimpleVariant.rawRate data
                progressInSeconds videoDefaultBPM currentBeat nextBeat))

/-- Adjacent-pairs monotonicity of the `start` field of a list, as a
decidable boolean; used to state the §3 validity invariants. -/
def startsNonDecB {α : Type} (startOf : α → ℚ) : List α → Bool
  | [] => true
  | [_] => true
  | a :: b :: rest =>
    decide (startOf a ≤ startOf b) && startsNonDecB startOf (b :: rest)

/-- Decidable form of the §3 validity invariants of a snapshot: in every
present list, starts are monotonically non-decreasing, durations are
positive and confidences lie in `[0, 1]`. -/
def validSnapshot (d : AudioData) : Bool :=
  (match d.beats with
   | none => true
   | some bs =>
     startsNonDecB Beat.start bs &&
       bs.all fun b =>
         decide (0 < b.duration) && decide (0 ≤ b.confidence) &&
           decide (b.confidence ≤ 1)) &&
  (match d.sections with
   | none => true
   | some ss =>
     startsNonDecB TrackSection.start ss &&
       ss.all fun s =>
         decide (0 < s.duration) && decide (0 ≤ s.confidence) &&
           decide (s.confidence ≤ 1)) &&
  (match d.segments with
   | none => true
   | some gs =>
     startsNonDecB Segment.start gs &&
       gs.all fun s =>
         decide (0 < s.duration) && decide (0 ≤ s.confidence) &&
           decide (s.confidence ≤ 1))

/-- The only part of the validity invariants that the engine's output
range depends on: all beat confidences lie in `[0, 1]`. -/
def beatConfsOk (d : AudioData) : Bool :=
  match d.beats with
  | none => true
  | some bs =>
    bs.all fun b => decide (0 ≤ b.confidence) && decide (b.confidence ≤ 1)

theorem validSnapshot_beatConfsOk {d : AudioData}
    (h : validSnapshot d = true) : beatConfsOk d = true := by
  unfold validSnapshot at h
  unfold beatConfsOk
  cases hb : d.beats with
  | none => rfl
  | some bs =>
    rw [hb] at h
    simp only [Bool.and_eq_true, List.all_eq_true] at h ⊢
    intro b hbmem
    have := h.1.1.2 b hbmem
    simp only [Bool.and_eq_true, decide_eq_true_eq] at this ⊢
    exact ⟨this.1.2, this.2⟩

theorem findCurrentBeatIndex_ge (p : ℚ) (bs : List Beat) :
    -1 ≤ findCurrentBeatIndex p bs := by
  induction bs with
  | nil => simp [findCurrentBeatIndex]
  | cons b rest ih =>
    simp only [findCurrentBeatIndex]
    split
    · omega
    · omega

theorem findCurrentBeatIndex_lt (p : ℚ) (bs : List Beat) :
    findCurrentBeatIndex p bs < (bs.length : Int) := by
  induction bs with
  | nil => simp [findCurrentBeatIndex]
  | cons b rest ih =>
    simp only [findCurrentBeatIndex, List.length_cons]
    split
    · push_cast
      omega
    · push_cast
      omega

theorem findCurrentBeatIndex_get (p : ℚ) (bs : List Beat)
    (h : 0 ≤ findCurrentBeatIndex p bs) :
    ∃ cb, bs.get? (findCurrentBeatIndex p bs).toNat = some cb ∧
      cb.start ≤ p := by
  induction bs with
  | nil => simp [findCurrentBeatIndex] at h
  | cons b rest ih =>
    simp only [findCurrentBeatIndex] at h ⊢
    by_cases hb : b.start ≤ p
    · rw [if_pos hb] at h ⊢
      rcases le_or_lt 0 (findCurrentBeatIndex p rest) with h0 | h0
      · obtain ⟨cb, hget, hcb⟩ := ih h0
        refine ⟨cb, ?_, hcb⟩
        have htn : (findCurrentBeatIndex p rest + 1).toNat =
            (findCurrentBeatIndex p rest).toNat + 1 := by omega
        rw [htn, List.get?_cons_succ]
        exact hget
      · have hneg : findCurrentBeatIndex p rest = -1 := by
          have := findCurrentBeatIndex_ge p rest
          omega
        rw [hneg]
        exact ⟨b, rfl, hb⟩
    · rw [if_neg hb] at h
      omega

theorem findCurrentBeatIndex_next_start_gt (p : ℚ) (bs : List Beat)
    (nb : Beat) (h : 0 ≤ findCurrentBeatIndex p bs)
    (hnb : bs.get? ((findCurrentBeatIndex p bs).toNat + 1) = some nb) :
    p < nb.start := by
  induction bs with
  | nil => simp [findCurrentBeatIndex] at h
  | cons b rest ih =>
    simp only [findCurrentBeatIndex] at h hnb
    by_cases hb : b.start ≤ p
    · rw [if_pos hb] at h hnb
      rcases le_or_lt 0 (findCurrentBeatIndex p rest) with h0 | h0
      · have htn : (findCurrentBeatIndex p rest + 1).toNat =
            (findCurrentBeatIndex p rest).toNat + 1 := by omega
        rw [htn, List.get?_cons_succ] at hnb
        exact ih h0 hnb
      · have hneg : findCurrentBeatIndex p rest = -1 := by
          have := findCurrentBeatIndex_ge p rest
          omega
        rw [hneg] at hnb
        have he : ((-1 : Int) + 1).toNat + 1 = 1 := by omega
        rw [he, List.get?_cons_succ] at hnb
        cases rest with
        | nil => simp at hnb
        | cons r tail =>
          rw [List.get?_cons_zero, Option.some_inj] at hnb
          subst hnb
          by_contra hle
          push_neg at hle
          have heq : findCurrentBeatIndex p (r :: tail) =
              findCurrentBeatIndex p tail + 1 := by
            simp [findCurrentBeatIndex, hle]
          have := findCurrentBeatIndex_ge p tail
          omega
    · rw [if_neg hb] at h
      omega

theorem startsNonDecB_tail {α : Type} (startOf : α → ℚ) (a : α)
    (l : List α) (h : startsNonDecB startOf (a :: l) = true) :
    startsNonDecB startOf l = true := by
  cases l with
  | nil => rfl
  | cons b rest =>
    simp only [startsNonDecB, Bool.and_eq_true] at h
    exact h.2

theorem startsNonDecB_head_le {α : Type} (startOf : α → ℚ) (a x : α)
    (l : List α) (n : Nat) (h : startsNonDecB startOf (a :: l) = true)
    (hx : l.get? n = some x) : startOf a ≤ startOf x := by
  induction l generalizing a n with
  | nil => simp at hx
  | cons b rest ih =>
    simp only [startsNonDecB, Bool.and_eq_true, decide_eq_true_eq] at h
    cases n with
    | zero =>
      rw [List.get?_cons_zero, Option.some_inj] at hx
      subst hx
      exact h.1
    | succ m =>
      rw [List.get?_cons_succ] at hx
      exact le_trans h.1 (ih b m h.2 hx)

theorem findCurrentBeatIndex_greatest (p : ℚ) (bs : List Beat)
    (hs : startsNonDecB Beat.start bs = true) (j : Nat) (bj : Beat)
    (hj : bs.get? j = some bj) (hstart : bj.start ≤ p) :
    (j : Int) ≤ findCurrentBeatIndex p bs := by
  induction bs generalizing j with
  | nil => simp at hj
  | cons b rest ih =>
    simp only [findCurrentBeatIndex]
    by_cases hb : b.start ≤ p
    · rw [if_pos hb]
      cases j with
      | zero =>
        have := findCurrentBeatIndex_ge p rest
        omega
      | succ m =>
        rw [List.get?_cons_succ] at hj
        have := ih (startsNonDecB_tail _ _ _ hs) m hj
        push_cast
        omega
    · exfalso
      apply hb
      cases j with
      | zero =>
        rw [List.get?_cons_zero, Option.some_inj] at hj
        subst hj
        exact hstart
      | succ m =>
        rw [List.get?_cons_succ] at hj
        exact le_trans (startsNonDecB_head_le Beat.start b bj rest m hs hj)
          hstart

theorem trapNation_mem (msin : ℚ → ℚ) (p bpm : ℚ) (d : AudioData)
    (hc : beatConfsOk d = true) :
    0.4 ≤ TrapNation.calculateDynamicPlaybackRate msin p (some d) bpm ∧
      TrapNation.calculateDynamicPlaybackRate msin p (some d) bpm ≤ 2.5 := by
  unfold TrapNation.calculateDynamicPlaybackRate
  dsimp only
  cases hb : d.beats with
  | none => dsimp only; norm_num
  | some bs =>
    dsimp only
    by_cases hlen : bs.length = 0
    · rw [if_pos hlen]
      norm_num
    · rw [if_neg hlen]
      by_cases hidx : findCurrentBeatIndex (p / 1000) bs = -1
      · rw [if_pos hidx]
        norm_num
      · rw [if_neg hidx]
        cases hg : bs.get? (findCurrentBeatIndex (p / 1000) bs).toNat with
        | none =>
          dsimp only
          norm_num
        | some cb =>
          dsimp only
          cases hn : bs.get? ((findCurrentBeatIndex (p / 1000) bs).toNat + 1)
            with
          | none =>
            dsimp only
            have hmem : cb ∈ bs := List.get?_mem hg
            have hcb : 0 ≤ cb.confidence ∧ cb.confidence ≤ 1 := by
              unfold beatConfsOk at hc
              rw [hb] at hc
              simp only [List.all_eq_true, Bool.and_eq_true,
                decide_eq_true_eq] at hc
              exact hc cb hmem
            constructor
            · linarith [hcb.1]
            · linarith [hcb.2]
          | some nb =>
            dsimp only
            constructor
            · exact le_max_left _ _
            · exact max_le (by norm_num) (min_le_left _ _)

theorem simpleVariant_mem (p bpm : ℚ) (d : AudioData)
    (hc : beatConfsOk d = true) :
    0.3 ≤ SimpleVariant.calculateDynamicPlaybackRate p (some d) bpm ∧
      SimpleVariant.calculateDynamicPlaybackRate p (some d) bpm ≤ 3.0 := by
  unfold SimpleVariant.calculateDynamicPlaybackRate
  dsimp only
  cases hb : d.beats with
  | none => dsimp only; norm_num
  | some bs =>
    dsimp only
    by_cases hlen : bs.length = 0
    · rw [if_pos hlen]
      norm_num
    · rw [if_neg hlen]
      by_cases hidx : findCurrentBeatIndex (p / 1000) bs = -1
      · rw [if_pos hidx]
        norm_num
      · rw [if_neg hidx]
        cases hg : bs.get? (findCurrentBeatIndex (p / 1000) bs).toNat with
        | none =>
          dsimp only
          norm_num
        | some cb =>
          dsimp only
          cases hn : bs.get? ((findCurrentBeatIndex (p / 1000) bs).toNat + 1)
            with
          | none =>
            dsimp only
            have hmem : cb ∈ bs := List.get?_mem hg
            have hcb : 0 ≤ cb.confidence ∧ cb.confidence ≤ 1 := by
              unfold beatConfsOk at hc
              rw [hb] at hc
              simp only [List.all_eq_true, Bool.and_eq_true,
                decide_eq_true_eq] at hc
              exact hc cb hmem
            constructor
            · linarith [hcb.1]
            · linarith [hcb.2]
          | some nb =>
            dsimp only
            constructor
            · exact le_max_left _ _
            · exact max_le (by norm_num) (min_le_left _ _)

theorem beatSpan_pos (p : ℚ) (bs : List Beat) (cb nb : Beat)
    (hi : 0 ≤ findCurrentBeatIndex p bs)
    (hcb : bs.get? (findCurrentBeatIndex p bs).toNat = some cb)
    (hnb : bs.get? ((findCurrentBeatIndex p bs).toNat + 1) = some nb) :
    0 < nb.start - cb.start := by
  obtain ⟨cb', hcb', hle⟩ := findCurrentBeatIndex_get p bs hi
  rw [hcb', Option.some_inj] at hcb
  subst hcb
  have hgt := findCurrentBeatIndex_next_start_gt p bs nb hi hnb
  linarith

/-- C1: for every snapshot satisfying the §3 validity invariants and
every non-negative `position_ms`, the returned rate lies in the clamp
band — `[0.4, 2.5]` for the Trap-Nation strategy and `[0.3, 3.0]` for
the simple strategy — on every path, the early returns included. -/
theorem claim_C1 (msin : ℚ → ℚ) (p bpm : ℚ) (d : AudioData)
    (hvalid : validSnapshot d = true) (hp : 0 ≤ p) :
    (0.4 ≤ TrapNation.calculateDynamicPlaybackRate msin p (some d) bpm ∧
      TrapNation.calculateDynamicPlaybackRate msin p (some d) bpm ≤ 2.5) ∧
    (0.3 ≤ SimpleVariant.calculateDynamicPlaybackRate p (some d) bpm ∧
      SimpleVariant.calculateDynamicPlaybackRate p (some d) bpm ≤ 3.0) :=
  ⟨trapNation_mem msin p bpm d (validSnapshot_beatConfsOk hvalid),
    simpleVariant_mem p bpm d (validSnapshot_beatConfsOk hvalid)⟩

theorem claim_C1_witness :
    validSnapshot (AudioData.mk none
        (some [Beat.mk 0 1 1, Beat.mk 1 1 1]) none none) = true ∧
    (0.4 ≤ TrapNation.calculateDynamicPlaybackRate (fun _ => 0) 0
        (some (AudioData.mk none
          (some [Beat.mk 0 1 1, Beat.mk 1 1 1]) none none)) 130 ∧
      TrapNation.calculateDynamicPlaybackRate (fun _ => 0) 0
        (some (AudioData.mk none
          (some [Beat.mk 0 1 1, Beat.mk 1 1 1]) none none)) 130 ≤ 2.5) ∧
    (0.3 ≤ SimpleVariant.calculateDynamicPlaybackRate 0
        (some (AudioData.mk none
          (some [Beat.mk 0 1 1, Beat.mk 1 1 1]) none none)) 130 ∧
      SimpleVariant.calculateDynamicPlaybackRate 0
        (some (AudioData.mk none
          (some [Beat.mk 0 1 1, Beat.mk 1 1 1]) none none)) 130 ≤ 3.0) :=
  ⟨by decide,
    claim_C1 (fun _ => 0) 0 130
      (AudioData.mk none (some [Beat.mk 0 1 1, Beat.mk 1 1 1]) none none)
      (by decide) (by norm_num)⟩

/-- C2 counterexample: the claim "every code path returns a finite number
within the clamp range for every input" fails at the unclamped post-beat
path: with a single beat of (malformed) confidence 10 and a position past
it, the Trap-Nation strategy returns `0.5 + 10 * 0.3 = 3.5`, which is
outside `[0.4, 2.5]`. -/
theorem claim_C2_counterexample :
    TrapNation.calculateDynamicPlaybackRate (fun _ => 0) 10000
        (some (AudioData.mk none (some [Beat.mk 0 1 10]) none none)) 130
      = 7/2 ∧ ¬((7/2 : ℚ) ≤ 5/2) := by
  constructor
  · unfold TrapNation.calculateDynamicPlaybackRate
    dsimp only
    have hidx : findCurrentBeatIndex (10000 / 1000) [Beat.mk 0 1 10] = 0 := by
      norm_num [findCurrentBeatIndex]
    rw [hidx]
    norm_num
  · norm_num

/-- C2 (amended): whenever the beat-span division of either variant
executes (a current beat and a next beat were both located), the span
`nextBeat.start - currentBeat.start` is strictly positive — a zero or
negative interval is never selected, so no division by zero occurs —
and, provided beat confidences lie in `[0, 1]`, every code path of both
variants returns a value inside the clamp range (the post-beat path
`0.5 + confidence * gain` is the only path that can otherwise leave
it). -/
theorem claim_C2 :
    (∀ (p : ℚ) (bs : List Beat) (cb nb : Beat),
      0 ≤ findCurrentBeatIndex p bs →
      bs.get? (findCurrentBeatIndex p bs).toNat = some cb →
      bs.get? ((findCurrentBeatIndex p bs).toNat + 1) = some nb →
      0 < nb.start - cb.start) ∧
    (∀ (msin : ℚ → ℚ) (p bpm : ℚ) (d : AudioData),
      beatConfsOk d = true →
      (0.4 ≤ TrapNation.calculateDynamicPlaybackRate msin p (some d) bpm ∧
        TrapNation.calculateDynamicPlaybackRate msin p (some d) bpm ≤ 2.5) ∧
      (0.3 ≤ SimpleVariant.calculateDynamicPlaybackRate p (some d) bpm ∧
        SimpleVariant.calculateDynamicPlaybackRate p (some d) bpm ≤ 3.0)) :=
  ⟨beatSpan_pos,
    fun msin p bpm d hc =>
      ⟨trapNation_mem msin p bpm d hc, simpleVariant_mem p bpm d hc⟩⟩

theorem claim_C2_witness :
    (0 < (Beat.mk 1 1 1).start - (Beat.mk 0 1 1).start) ∧
    (0.4 ≤ TrapNation.calculateDynamicPlaybackRate (fun _ => 0) 250
        (some (AudioData.mk none (some [Beat.mk 0 1 1]) none none)) 130 ∧
      TrapNation.calculateDynamicPlaybackRate (fun _ => 0) 250
        (some (AudioData.mk none (some [Beat.mk 0 1 1]) none none)) 130
        ≤ 2.5) :=
  ⟨claim_C2.1 0 [Beat.mk 0 1 1, Beat.mk 1 1 1]
      (Beat.mk 0 1 1) (Beat.mk 1 1 1)
      (by decide) (by decide) (by decide),
    (claim_C2.2 (fun _ => 0) 250 130
      (AudioData.mk none (some [Beat.mk 0 1 1]) none none)
      (by decide)).1⟩

/-- Modelled from the spec (§3): a snapshot in which every beat
confidence has been clamped into `[0, 1]` before the engine uses it
("confidence ... values are always clamped into `[0,1]` before use,
never trusted raw").  Beat confidences are the only confidences the two
rate functions read. -/
def clampBeatConfidences (d : AudioData) : AudioData :=
  { d with
    beats := d.beats.map fun bs =>
      bs.map fun b => { b with confidence := max 0 (min 1 b.confidence) } }

/-- C3 counterexample: the Trap-Nation strategy uses the raw confidence
field: past a single beat of (out-of-range) confidence 2, it returns
`0.5 + 2 * 0.3 = 1.1`, not the `0.5 + clamp(2) * 0.3 = 0.8` the claim
entails. -/
theorem claim_C3_counterexample :
    TrapNation.calculateDynamicPlaybackRate (fun _ => 0) 5000
        (some (AudioData.mk none (some [Beat.mk 0 1 2]) none none)) 130
      = 11/10 ∧ ((11:ℚ)/10 ≠ 0.5 + max 0 (min 1 2) * 0.3) := by
  constructor
  · unfold TrapNation.calculateDynamicPlaybackRate
    dsimp only
    have hidx : findCurrentBeatIndex (5000 / 1000) [Beat.mk 0 1 2] = 0 := by
      norm_num [findCurrentBeatIndex]
    rw [hidx]
    norm_num
  · norm_num

theorem clampList_eq_self (bs : List Beat)
    (hcb : ∀ x ∈ bs, 0 ≤ x.confidence ∧ x.confidence ≤ 1) :
    (bs.map fun b => { b with confidence := max 0 (min 1 b.confidence) })
      = bs := by
  induction bs with
  | nil => rfl
  | cons b rest ih =>
    simp only [List.map_cons, List.cons.injEq]
    refine ⟨?_, ih fun x hx => hcb x (List.mem_cons_of_mem b hx)⟩
    have hb := hcb b (List.mem_cons_self b rest)
    have hconf : max 0 (min 1 b.confidence) = b.confidence := by
      rw [min_eq_right hb.2, max_eq_right hb.1]
    cases b with
    | mk s du c => simpa using hconf

theorem clampBeatConfidences_eq_self (d : AudioData)
    (hc : beatConfsOk d = true) : clampBeatConfidences d = d := by
  cases d with
  | mk track beats sections segments =>
    cases beats with
    | none => rfl
    | some bs =>
      have hc2 : (bs.all fun b =>
          decide (0 ≤ b.confidence) && decide (b.confidence ≤ 1)) = true := hc
      have hcb : ∀ x ∈ bs, 0 ≤ x.confidence ∧ x.confidence ≤ 1 := by
        simp only [List.all_eq_true, Bool.and_eq_true, decide_eq_true_eq]
          at hc2
        exact hc2
      have hsome : (some bs).map (fun l => l.map fun b =>
          { b with confidence := max 0 (min 1 b.confidence) }) = some bs := by
        show some (bs.map fun b =>
          { b with confidence := max 0 (min 1 b.confidence) }) = some bs
        rw [clampList_eq_self bs hcb]
      unfold clampBeatConfidences
      dsimp only
      rw [hsome]

/-- C3 (amended): the engine does not clamp confidence values — the
post-beat return and the attack-strength term read the raw field (see
the counterexample) — but on data whose beat confidences already lie in
`[0, 1]` clamping them first is a no-op: both strategies return exactly
the same rate on the clamped and on the raw snapshot. -/
theorem claim_C3 (msin : ℚ → ℚ) (p bpm : ℚ) (d : AudioData)
    (hc : beatConfsOk d = true) :
    TrapNation.calculateDynamicPlaybackRate msin p
        (some (clampBeatConfidences d)) bpm =
      TrapNation.calculateDynamicPlaybackRate msin p (some d) bpm ∧
    SimpleVariant.calculateDynamicPlaybackRate p
        (some (clampBeatConfidences d)) bpm =
      SimpleVariant.calculateDynamicPlaybackRate p (some d) bpm := by
  rw [clampBeatConfidences_eq_self d hc]
  exact ⟨rfl, rfl⟩

theorem claim_C3_witness :
    TrapNation.calculateDynamicPlaybackRate (fun _ => 0) 700
        (some (clampBeatConfidences
          (AudioData.mk none (some [Beat.mk 0 1 1]) none none))) 130 =
      TrapNation.calculateDynamicPlaybackRate (fun _ => 0) 700
        (some (AudioData.mk none (some [Beat.mk 0 1 1]) none none)) 130 :=
  (claim_C3 (fun _ => 0) 700 130
    (AudioData.mk none (some [Beat.mk 0 1 1]) none none) (by decide)).1

/-- C4: the beat-location step selects the greatest index whose beat
starts at or before the timestamp; no such beat means the pre-beat
state, a missing following beat means the post-beat state (the index is
then the last one), and otherwise the normalized phase lies in
`[0, 1)`. -/
theorem claim_C4 (p : ℚ) (bs : List Beat) (hp : 0 ≤ p)
    (hs : startsNonDecB Beat.start bs = true) :
    (-1 ≤ findCurrentBeatIndex p bs ∧
      findCurrentBeatIndex p bs < (bs.length : Int)) ∧
    (∀ (j : Nat) (bj : Beat), bs.get? j = some bj → bj.start ≤ p →
      (j : Int) ≤ findCurrentBeatIndex p bs) ∧
    (∀ cb : Beat, 0 ≤ findCurrentBeatIndex p bs →
      bs.get? (findCurrentBeatIndex p bs).toNat = some cb → cb.start ≤ p) ∧
    (findCurrentBeatIndex p bs = -1 ↔
      bs = [] ∨ ∃ b0 rest, bs = b0 :: rest ∧ p < b0.start) ∧
    (0 ≤ findCurrentBeatIndex p bs →
      bs.get? ((findCurrentBeatIndex p bs).toNat + 1) = none →
      findCurrentBeatIndex p bs = (bs.length : Int) - 1) ∧
    (∀ cb nb : Beat, 0 ≤ findCurrentBeatIndex p bs →
      bs.get? (findCurrentBeatIndex p bs).toNat = some cb →
      bs.get? ((findCurrentBeatIndex p bs).toNat + 1) = some nb →
      0 ≤ (p - cb.start) / (nb.start - cb.start) ∧
        (p - cb.start) / (nb.start - cb.start) < 1) := by
  refine ⟨⟨findCurrentBeatIndex_ge p bs, findCurrentBeatIndex_lt p bs⟩,
    fun j bj hj hstart =>
      findCurrentBeatIndex_greatest p bs hs j bj hj hstart,
    ?_, ?_, ?_, ?_⟩
  · intro cb hi hget
    obtain ⟨cb', hget', hle⟩ := findCurrentBeatIndex_get p bs hi
    rw [hget', Option.some_inj] at hget
    rw [← hget]
    exact hle
  · cases bs with
    | nil =>
      simp [findCurrentBeatIndex]
    | cons b rest =>
      constructor
      · intro h
        by_cases hb : b.start ≤ p
        · exfalso
          have := findCurrentBeatIndex_ge p rest
          simp only [findCurrentBeatIndex, if_pos hb] at h
          omega
        · exact Or.inr ⟨b, rest, rfl, not_le.mp hb⟩
      · rintro (h | ⟨b0, rest', heq, hlt⟩)
        · exact absurd h (List.cons_ne_nil b rest)
        · rw [List.cons.injEq] at heq
          simp [findCurrentBeatIndex, not_le.mpr (heq.1 ▸ hlt)]
  · intro hi hnone
    have hlt := findCurrentBeatIndex_lt p bs
    have hlen : bs.length ≤ (findCurrentBeatIndex p bs).toNat + 1 :=
      List.get?_eq_none.mp hnone
    omega
  · intro cb nb hi hcb hnb
    obtain ⟨cb', hget', hle⟩ := findCurrentBeatIndex_get p bs hi
    rw [hget', Option.some_inj] at hcb
    have hle2 : cb.start ≤ p := by
      rw [← hcb]
      exact hle
    have hgt := findCurrentBeatIndex_next_start_gt p bs nb hi hnb
    have hpos : 0 < nb.start - cb.start := by linarith
    constructor
    · exact div_nonneg (by linarith) (le_of_lt hpos)
    · rw [div_lt_one hpos]
      linarith

theorem claim_C4_witness :
    ((0 : Int) ≤ findCurrentBeatIndex 1 [Beat.mk 0 1 1, Beat.mk 2 1 1]) ∧
    (0 ≤ ((1 : ℚ) - (Beat.mk 0 1 1).start) /
        ((Beat.mk 2 1 1).start - (Beat.mk 0 1 1).start) ∧
      ((1 : ℚ) - (Beat.mk 0 1 1).start) /
        ((Beat.mk 2 1 1).start - (Beat.mk 0 1 1).start) < 1) := by
  have h := claim_C4 1 [Beat.mk 0 1 1, Beat.mk 2 1 1] (by norm_num)
    (by decide)
  exact ⟨by decide,
    h.2.2.2.2.2 (Beat.mk 0 1 1) (Beat.mk 2 1 1) (by decide) (by decide)
      (by decide)⟩

/-- C5: with a next section more than 1.5 dB louder than the current
one, build-up is detected exactly when the time until the section
boundary is at most the 8-second window, the progress is
`1 - time_until_boundary / 8` (so exactly `0.5` four seconds before the
boundary), and the build-up multiplier
`1 + progress * 0.4 * tempo_intensity` exceeds 1 for positive progress
and is strictly increasing in the progress. -/
theorem claim_C5 (p : ℚ) (sections : List TrackSection) (i : Nat)
    (cur next : TrackSection)
    (hc : sections.get? i = some cur)
    (hn : sections.get? (i + 1) = some next)
    (hl : next.loudness - cur.loudness > 1.5)
    (ht : 0 ≤ cur.start + cur.duration - p) :
    ((detectBuildUp p sections (i : Int)).isBuildUp = true ↔
      cur.start + cur.duration - p ≤ 8) ∧
    (cur.start + cur.duration - p ≤ 8 →
      (detectBuildUp p sections (i : Int)).buildUpProgress =
        1 - (cur.start + cur.duration - p) / 8) ∧
    (cur.start + cur.duration - p = 4 →
      (detectBuildUp p sections (i : Int)).buildUpProgress = 1/2) ∧
    (∀ ti q : ℚ, 0.3 ≤ ti → 0 < q → 1 < 1 + q * 0.4 * ti) ∧
    (∀ ti q r : ℚ, 0.3 ≤ ti → q < r →
      1 + q * 0.4 * ti < 1 + r * 0.4 * ti) := by
  have hilen : i + 1 < sections.length := by
    by_contra hge
    push_neg at hge
    rw [List.get?_eq_none.mpr hge] at hn
    exact Option.noConfusion hn
  have hguard : ¬((i : Int) < 0 ∨
      (i : Int) ≥ (sections.length : Int) - 1) := by
    push_neg
    omega
  have htn : ((i : Int)).toNat = i := by omega
  unfold detectBuildUp
  rw [if_neg hguard, htn, hc, hn]
  try dsimp only
  rw [if_pos hl]
  try dsimp only
  refine ⟨?_, ?_, ?_, ?_, ?_⟩
  · by_cases h8 : cur.start + cur.duration - p > 8
    · rw [if_pos h8]
      try dsimp only
      constructor
      · intro hh
        exact absurd hh (by simp)
      · intro hh
        exfalso
        linarith
    · rw [if_neg h8]
      try dsimp only
      constructor
      · intro _
        exact not_lt.mp h8
      · intro _
        rfl
  · intro hle
    rw [if_neg (not_lt.mpr hle)]
    try dsimp only
    have hmin : min 1 (1 - (cur.start + cur.duration - p) / 8) =
        1 - (cur.start + cur.duration - p) / 8 :=
      min_eq_right (by linarith)
    have hmax : max 0 (1 - (cur.start + cur.duration - p) / 8) =
        1 - (cur.start + cur.duration - p) / 8 :=
      max_eq_right (by linarith)
    rw [hmin, hmax]
  · intro h4
    rw [h4]
    norm_num
  · intro ti q hti hq
    nlinarith
  · intro ti q r hti hqr
    nlinarith

theorem claim_C5_witness :
    ((detectBuildUp 6
        [TrackSection.mk 0 10 1 (-10) 120 1 0 1 1 1 4 1,
          TrackSection.mk 10 10 1 (-7) 120 1 0 1 1 1 4 1]
        ((0 : Nat) : Int)).isBuildUp = true) ∧
    ((detectBuildUp 6
        [TrackSection.mk 0 10 1 (-10) 120 1 0 1 1 1 4 1,
          TrackSection.mk 10 10 1 (-7) 120 1 0 1 1 1 4 1]
        ((0 : Nat) : Int)).buildUpProgress = 1/2) ∧
    (1 + (1/2 : ℚ) * 0.4 * 1 < 1 + 1 * 0.4 * 1) := by
  have h := claim_C5 6
    [TrackSection.mk 0 10 1 (-10) 120 1 0 1 1 1 4 1,
      TrackSection.mk 10 10 1 (-7) 120 1 0 1 1 1 4 1]
    0 (TrackSection.mk 0 10 1 (-10) 120 1 0 1 1 1 4 1)
    (TrackSection.mk 10 10 1 (-7) 120 1 0 1 1 1 4 1)
    (by decide) (by decide) (by norm_num) (by norm_num)
  exact ⟨h.1.mpr (by norm_num), h.2.2.1 (by norm_num),
    h.2.2.2.2 1 (1/2) 1 (by norm_num) (by norm_num)⟩

/-- C6: for the boundary scenario — beats at 0 s and 0.5 s with
confidence 0.9, no track, sections or segments, target base BPM 120 and
position 0 ms (beat phase 0) — the instantaneous BPM `60 / beat span`
is 120, the tempo ratio is 1, and the Trap-Nation rate (exactly 19/20)
lies within `[0.9, 1.3]`. -/
theorem claim_C6 (msin : ℚ → ℚ) :
    60 / ((Beat.mk (1/2) (1/2) (9/10)).start -
      (Beat.mk 0 (1/2) (9/10)).start) = 120 ∧
    60 / ((Beat.mk (1/2) (1/2) (9/10)).start -
      (Beat.mk 0 (1/2) (9/10)).start) / 120 = 1 ∧
    TrapNation.calculateDynamicPlaybackRate msin 0
      (some (AudioData.mk none
        (some [Beat.mk 0 (1/2) (9/10), Beat.mk (1/2) (1/2) (9/10)])
        none none)) 120 = 19/20 ∧
    (0.9 : ℚ) ≤ 19/20 ∧ (19/20 : ℚ) ≤ 1.3 := by
  refine ⟨by norm_num, by norm_num, ?_, by norm_num, by norm_num⟩
  unfold TrapNation.calculateDynamicPlaybackRate
  dsimp only
  have hidx : findCurrentBeatIndex (0 / 1000)
      [Beat.mk 0 (1/2) (9/10), Beat.mk (1/2) (1/2) (9/10)] = 0 := by
    norm_num [findCurrentBeatIndex]
  rw [hidx]
  have hraw : TrapNation.rawRate msin
      (AudioData.mk none
        (some [Beat.mk 0 (1/2) (9/10), Beat.mk (1/2) (1/2) (9/10)])
        none none) 0 120 (Beat.mk 0 (1/2) (9/10))
      (Beat.mk (1/2) (1/2) (9/10)) = 19/20 := by
    unfold TrapNation.rawRate
    norm_num [easeOutCubic]
  norm_num [hraw]

theorem trapNation_prebeat (msin : ℚ → ℚ) (p bpm : ℚ) (d : AudioData)
    (bs : List Beat) (b0 : Beat) (hb : d.beats = some bs)
    (hhead : bs.get? 0 = some b0) (hpre : p / 1000 < b0.start) :
    TrapNation.calculateDynamicPlaybackRate msin p (some d) bpm = 0.4 := by
  cases bs with
  | nil => simp at hhead
  | cons b rest =>
    rw [List.get?_cons_zero, Option.some_inj] at hhead
    subst hhead
    unfold TrapNation.calculateDynamicPlaybackRate
    dsimp only
    rw [hb]
    dsimp only
    rw [if_neg (by simp : ¬((b :: rest).length = 0))]
    have hidx : findCurrentBeatIndex (p / 1000) (b :: rest) = -1 := by
      unfold findCurrentBeatIndex
      rw [if_neg (not_le.mpr hpre)]
    rw [hidx, if_pos rfl]

theorem simpleVariant_prebeat (p bpm : ℚ) (d : AudioData)
    (bs : List Beat) (b0 : Beat) (hb : d.beats = some bs)
    (hhead : bs.get? 0 = some b0) (hpre : p / 1000 < b0.start) :
    SimpleVariant.calculateDynamicPlaybackRate p (some d) bpm = 0.3 := by
  cases bs with
  | nil => simp at hhead
  | cons b rest =>
    rw [List.get?_cons_zero, Option.some_inj] at hhead
    subst hhead
    unfold SimpleVariant.calculateDynamicPlaybackRate
    dsimp only
    rw [hb]
    dsimp only
    rw [if_neg (by simp : ¬((b :: rest).length = 0))]
    have hidx : findCurrentBeatIndex (p / 1000) (b :: rest) = -1 := by
      unfold findCurrentBeatIndex
      rw [if_neg (not_le.mpr hpre)]
    rw [hidx, if_pos rfl]

/-- C7: for every position strictly before the first beat, both
strategies return their fixed pre-beat rate (0.4 for Trap-Nation, 0.3
for the simple variant), independently of every other snapshot field:
two snapshots agreeing on the beat list produce identical pre-beat
output. -/
theorem claim_C7 (msin : ℚ → ℚ) (p bpm : ℚ) (d1 d2 : AudioData)
    (bs : List Beat) (b0 : Beat)
    (h1 : d1.beats = some bs) (h2 : d2.beats = some bs)
    (hhead : bs.get? 0 = some b0) (hpre : p / 1000 < b0.start) :
    TrapNation.calculateDynamicPlaybackRate msin p (some d1) bpm = 0.4 ∧
    SimpleVariant.calculateDynamicPlaybackRate p (some d1) bpm = 0.3 ∧
    TrapNation.calculateDynamicPlaybackRate msin p (some d1) bpm =
      TrapNation.calculateDynamicPlaybackRate msin p (some d2) bpm ∧
    SimpleVariant.calculateDynamicPlaybackRate p (some d1) bpm =
      SimpleVariant.calculateDynamicPlaybackRate p (some d2) bpm := by
  refine ⟨trapNation_prebeat msin p bpm d1 bs b0 h1 hhead hpre,
    simpleVariant_prebeat p bpm d1 bs b0 h1 hhead hpre, ?_, ?_⟩
  · rw [trapNation_prebeat msin p bpm d1 bs b0 h1 hhead hpre,
      trapNation_prebeat msin p bpm d2 bs b0 h2 hhead hpre]
  · rw [simpleVariant_prebeat p bpm d1 bs b0 h1 hhead hpre,
      simpleVariant_prebeat p bpm d2 bs b0 h2 hhead hpre]

theorem claim_C7_witness :
    TrapNation.calculateDynamicPlaybackRate (fun _ => 0) 500
        (some (AudioData.mk none (some [Beat.mk 2 1 1]) none none)) 130
      = 0.4 ∧
    SimpleVariant.calculateDynamicPlaybackRate 500
        (some (AudioData.mk none (some [Beat.mk 2 1 1]) none none)) 130
      = 0.3 ∧
    TrapNation.calculateDynamicPlaybackRate (fun _ => 0) 500
        (some (AudioData.mk none (some [Beat.mk 2 1 1]) none none)) 130 =
      TrapNation.calculateDynamicPlaybackRate (fun _ => 0) 500
        (some (AudioData.mk (some (Track.mk 120 (-10) 180))
          (some [Beat.mk 2 1 1]) (some []) (some []))) 130 ∧
    SimpleVariant.calculateDynamicPlaybackRate 500
        (some (AudioData.mk none (some [Beat.mk 2 1 1]) none none)) 130 =
      SimpleVariant.calculateDynamicPlaybackRate 500
        (some (AudioData.mk (some (Track.mk 120 (-10) 180))
          (some [Beat.mk 2 1 1]) (some []) (some []))) 130 :=
  claim_C7 (fun _ => 0) 500 130
    (AudioData.mk none (some [Beat.mk 2 1 1]) none none)
    (AudioData.mk (some (Track.mk 120 (-10) 180)) (some [Beat.mk 2 1 1])
      (some []) (some []))
    [Beat.mk 2 1 1] (Beat.mk 2 1 1) rfl rfl rfl (by norm_num)

/-- C8: the Trap-Nation strategy treats an absent section list and an
empty section list identically — both contribute the neutral section
energy 0.5 and no build-up — so the computed rate is the same for every
position, track, beat list and segment list. -/
theorem claim_C8 (msin : ℚ → ℚ) (p bpm : ℚ) (track : Option Track)
    (beats : Option (List Beat)) (segments : Option (List Segment)) :
    TrapNation.calculateDynamicPlaybackRate msin p
        (some (AudioData.mk track beats none segments)) bpm =
      TrapNation.calculateDynamicPlaybackRate msin p
        (some (AudioData.mk track beats (some []) segments)) bpm := rfl

theorem simpleVariant_rawRate_factors (data : AudioData)
    (ps bpm : ℚ) (cb nb : Beat) :
    SimpleVariant.rawRate data ps bpm cb nb =
      SimpleVariant.rateRatioBoosted ((60 / (nb.start - cb.start)) / bpm)
          cb.confidence *
        SimpleVariant.confidenceMultiplier cb.confidence *
        max 0.65 (SimpleVariant.loudnessMultiplier ps data.track
          data.sections data.segments) *
        SimpleVariant.beatPhaseMultiplier
          ((ps - cb.start) / (nb.start - cb.start)) := rfl

/-- C9 counterexample: at a position whose tempo ratio is below 0.8 with
beat confidence above 0.5, the simple variant multiplies the tempo ratio
by 1.25 first, so its result (333/325) differs from the clamped product
of the four factors named by the claim with the plain tempo ratio
(1332/1625). -/
theorem claim_C9_counterexample :
    SimpleVariant.calculateDynamicPlaybackRate 0
        (some (AudioData.mk none
          (some [Beat.mk 0 1 (9/10), Beat.mk 1 1 (9/10)]) none none)) 130
      = 333/325 ∧
    max 0.3 (min 3.0 ((60 / ((Beat.mk 1 1 (9/10)).start -
          (Beat.mk 0 1 (9/10)).start) / 130) *
        SimpleVariant.confidenceMultiplier (9/10) *
        max 0.65 (SimpleVariant.loudnessMultiplier 0 none none none) *
        SimpleVariant.beatPhaseMultiplier
          ((0 - (Beat.mk 0 1 (9/10)).start) /
            ((Beat.mk 1 1 (9/10)).start - (Beat.mk 0 1 (9/10)).start))))
      = 1332/1625 ∧
    (333/325 : ℚ) ≠ 1332/1625 := by
  refine ⟨?_, ?_, by norm_num⟩
  · unfold SimpleVariant.calculateDynamicPlaybackRate
    dsimp only
    have hidx : findCurrentBeatIndex (0 / 1000)
        [Beat.mk 0 1 (9/10), Beat.mk 1 1 (9/10)] = 0 := by
      norm_num [findCurrentBeatIndex]
    rw [hidx]
    have hraw : SimpleVariant.rawRate
        (AudioData.mk none
          (some [Beat.mk 0 1 (9/10), Beat.mk 1 1 (9/10)]) none none)
        0 130 (Beat.mk 0 1 (9/10)) (Beat.mk 1 1 (9/10)) = 333/325 := by
      unfold SimpleVariant.rawRate
      norm_num
    norm_num [hraw]
  · norm_num [SimpleVariant.confidenceMultiplier,
      SimpleVariant.loudnessMultiplier, SimpleVariant.beatPhaseMultiplier]

/-- C9 (amended): on every in-beat position (current and next beat both
located), the simple variant's result is the clamped product of exactly
four factors — the 25%-boosted tempo ratio (the boost fires when the
plain ratio is below 0.8 and the beat confidence exceeds 0.5; the claim
omitted this adjustment, see the counterexample), the confidence
multiplier, the floored section/segment loudness-delta multiplier, and
the coarse beat-position multiplier. -/
theorem claim_C9 (p bpm : ℚ) (d : AudioData) (bs : List Beat)
    (cb nb : Beat) (hb : d.beats = some bs)
    (hi : 0 ≤ findCurrentBeatIndex (p / 1000) bs)
    (hcb : bs.get? (findCurrentBeatIndex (p / 1000) bs).toNat = some cb)
    (hnb : bs.get? ((findCurrentBeatIndex (p / 1000) bs).toNat + 1)
      = some nb) :
    SimpleVariant.calculateDynamicPlaybackRate p (some d) bpm =
      max 0.3 (min 3.0
        (SimpleVariant.rateRatioBoosted
            ((60 / (nb.start - cb.start)) / bpm) cb.confidence *
          SimpleVariant.confidenceMultiplier cb.confidence *
          max 0.65 (SimpleVariant.loudnessMultiplier (p / 1000) d.track
            d.sections d.segments) *
          SimpleVariant.beatPhaseMultiplier
            ((p / 1000 - cb.start) / (nb.start - cb.start)))) := by
  unfold SimpleVariant.calculateDynamicPlaybackRate
  dsimp only
  rw [hb]
  dsimp only
  have hne : ¬(bs.length = 0) := by
    cases bs with
    | nil => simp at hcb
    | cons x xs => simp
  rw [if_neg hne, if_neg (by omega :
    ¬(findCurrentBeatIndex (p / 1000) bs = -1)), hcb]
  dsimp only
  rw [hnb]
  dsimp only
  rw [simpleVariant_rawRate_factors]

theorem claim_C9_witness :
    SimpleVariant.calculateDynamicPlaybackRate 0
        (some (AudioData.mk none
          (some [Beat.mk 0 1 1, Beat.mk 1 1 1]) none none)) 130 =
      max 0.3 (min 3.0
        (SimpleVariant.rateRatioBoosted
            ((60 / ((Beat.mk 1 1 1).start - (Beat.mk 0 1 1).start)) / 130)
            (Beat.mk 0 1 1).confidence *
          SimpleVariant.confidenceMultiplier (Beat.mk 0 1 1).confidence *
          max 0.65 (SimpleVariant.loudnessMultiplier (0 / 1000) none
            none none) *
          SimpleVariant.beatPhaseMultiplier
            ((0 / 1000 - (Beat.mk 0 1 1).start) /
              ((Beat.mk 1 1 1).start - (Beat.mk 0 1 1).start)))) :=
  claim_C9 0 130
    (AudioData.mk none (some [Beat.mk 0 1 1, Beat.mk 1 1 1]) none none)
    [Beat.mk 0 1 1, Beat.mk 1 1 1] (Beat.mk 0 1 1) (Beat.mk 1 1 1) rfl
    (by norm_num [findCurrentBeatIndex])
    (by norm_num [findCurrentBeatIndex])
    (by norm_num [findCurrentBeatIndex])

/-- C10: a segment whose timbre sequence is missing, empty, or whose
second coefficient is absent or zero contributes the neutral bass-energy
value 0.5 to the segment reactivity stage (`getBassEnergy` is the bass
component combined into `combinedEnergy` there). -/
theorem claim_C10 (seg : Segment)
    (h : seg.timbre = none ∨ seg.timbre = some [] ∨
      ∃ l, seg.timbre = some l ∧ (l.get? 1 = none ∨ l.get? 1 = some 0)) :
    getBassEnergy seg = 0.5 := by
  unfold getBassEnergy
  rcases h with h | h | ⟨l, hl, h2⟩
  · rw [h]
  · rw [h]
    rfl
  · rw [hl]
    dsimp only
    by_cases hlen : l.length = 0
    · rw [if_pos hlen]
    · rw [if_neg hlen]
      rcases h2 with h2 | h2 <;> rw [h2] <;> norm_num

theorem claim_C10_witness :
    getBassEnergy (Segment.mk 0 1 1 0 0 0 0 [] none) = 0.5 :=
  claim_C10 (Segment.mk 0 1 1 0 0 0 0 [] none) (Or.inl rfl)
